import Mathlib

/-!
Shallow embedding of the dynamic-array implementation in src/vector.h
(template classes RawMemory and Vector).

Two models are developed.

Value model (AdvVec.Vector): the vector is its list of live elements
(indices [0, size) of the storage), its capacity, and an allocation
identity for the raw buffer.  Element copy / move / assignment are
value-preserving and cannot fail here; this model embeds the success
paths of every operation of the class.  The allocation identity
(bufferId) models the address of the raw buffer returned by
RawMemory::Allocate: a reallocation receives the identity bufferId + 1,
which is distinct from the old buffer of the same vector (a real
allocator never returns the address of a still-live allocation); a
default-constructed or zero-capacity RawMemory has the null buffer,
identity 0.

Slot model (AdvVec.VecS): the storage is a list of capacity slots, each
holding either a constructed element (some a) or uninitialized /
destroyed raw memory (none), together with the live count size.  Element
operations may fail (an Option-returning operation models a throwing
constructor), which embeds the exception paths of EmplaceBack and of the
reallocating branch of Emplace.
-/

namespace AdvVec

/-- The new-capacity computation of the reallocating growth paths,
`size_ == 0 ? 1 : size_ * 2` (vector.h lines 201 and 238). -/
def growCap (n : Nat) : Nat := if n = 0 then 1 else n * 2

/-- Value model of `Vector<T>`: live elements, capacity of the owned
RawMemory, and the allocation identity of its raw buffer. -/
structure Vector (α : Type) where
  elems : List α
  capacity : Nat
  bufferId : Nat
deriving DecidableEq, Repr

namespace Vector

variable {α : Type}

/-- `Size()` — the number of live elements. -/
def size (v : Vector α) : Nat := v.elems.length

/-- The container invariant: the live count never exceeds the capacity
of the owned storage (elements [0, size) live, [size, capacity) raw). -/
def WF (v : Vector α) : Prop := v.elems.length ≤ v.capacity

instance (v : Vector α) : Decidable v.WF :=
  Nat.decLe _ _

/-- `Vector()` — default construction: null buffer, capacity 0, size 0. -/
def empty : Vector α := ⟨[], 0, 0⟩

/-- `Vector(size_t size)` — allocates capacity `size` and
value-constructs `size` elements (value `d` models the
value-constructed element).  `Allocate(0)` returns the null buffer. -/
def mkSized (n : Nat) (d : α) : Vector α :=
  ⟨List.replicate n d, n, if n = 0 then 0 else 1⟩

/-- `Vector(const Vector&)` — allocates capacity `other.size_` (a fresh
buffer) and copy-constructs the `other.size_` elements. -/
def copyCtor (src : Vector α) : Vector α :=
  ⟨src.elems, src.size, if src.size = 0 then 0 else src.bufferId + 1⟩

/-- `Swap(Vector&)` — exchanges the two RawMemory handles and the two
sizes; the pair is (new state of `this`, new state of `other`). -/
def swap (self other : Vector α) : Vector α × Vector α := (other, self)

/-- `Vector(Vector&&)` — default-initializes `this` (null buffer,
size 0) and swaps with the source; the pair is
(the constructed vector, the moved-from source). -/
def moveCtor (other : Vector α) : Vector α × Vector α :=
  swap empty other

/-- `operator=(const Vector&)`.  `isSelf` models the pointer test
`this == &rhs`.  Otherwise: if `rhs.size_ > data_.Capacity()`,
copy-and-swap via the copy constructor; else reuse the storage:
if `rhs.size_ < size_`, copy-assign the first `rhs.size_` slots and
destroy the trailing `size_ - rhs.size_` live elements; else
copy-assign the first `size_` slots and copy-construct the remaining
`rhs.size_ - size_` source elements into the raw tail. -/
def copyAssign (self rhs : Vector α) (isSelf : Bool) : Vector α :=
  if isSelf then self
  else if self.capacity < rhs.size then copyCtor rhs
  else if rhs.size < self.size then
    ⟨(rhs.elems ++ self.elems.drop rhs.size).take rhs.size,
      self.capacity, self.bufferId⟩
  else
    ⟨rhs.elems.take self.size ++ rhs.elems.drop self.size,
      self.capacity, self.bufferId⟩

/-- `operator=(Vector&&)` — if `this != &rhs`, `Swap(rhs)`; the pair is
(new state of `this`, new state of `rhs`). -/
def moveAssign (self rhs : Vector α) (isSelf : Bool) : Vector α × Vector α :=
  if isSelf then (self, rhs) else swap self rhs

/-- `Reserve(new_capacity)` — returns unchanged (same buffer) when
`new_capacity <= data_.Capacity()`; otherwise allocates exactly
`new_capacity` fresh slots, migrates the live elements
(value-preserving), destroys the old ones and swaps storage. -/
def reserve (v : Vector α) (newCapacity : Nat) : Vector α :=
  if newCapacity ≤ v.capacity then v
  else ⟨v.elems, newCapacity, v.bufferId + 1⟩

/-- `Resize(new_size)` — shrink destroys the trailing elements; growth
within capacity value-constructs in place; growth beyond capacity first
calls `Reserve(new_size)` and then value-constructs the new tail
(value `d` models a value-constructed element). -/
def resize (v : Vector α) (newSize : Nat) (d : α) : Vector α :=
  if newSize < v.size then ⟨v.elems.take newSize, v.capacity, v.bufferId⟩
  else if newSize = v.size then v
  else if newSize ≤ v.capacity then
    ⟨v.elems ++ List.replicate (newSize - v.size) d, v.capacity, v.bufferId⟩
  else
    let w := reserve v newSize
    ⟨w.elems ++ List.replicate (newSize - w.size) d, w.capacity, w.bufferId⟩

/-- `EmplaceBack(args...)`, success path.  At full capacity: allocate
`growCap size_` fresh slots, construct the new element at slot `size_`,
migrate the old elements into slots [0, size) (value-preserving whether
moved or copied), destroy the old ones, swap storage, increment size.
Otherwise construct directly into slot `size_` and increment size. -/
def emplaceBack (v : Vector α) (x : α) : Vector α :=
  if v.size = v.capacity then
    ⟨v.elems ++ [x], growCap v.size, v.bufferId + 1⟩
  else
    ⟨v.elems ++ [x], v.capacity, v.bufferId⟩

/-- `PushBack(value)` — forwards to `EmplaceBack`. -/
def pushBack (v : Vector α) (x : α) : Vector α := emplaceBack v x

/-- `Back()` — the element at index `size_ - 1` (default `d` is the
out-of-contract value for an empty vector). -/
def back (v : Vector α) (d : α) : α := v.elems.getLastD d

/-- The effect of `std::move_backward(pos, end() - 1, end())` on the
list `s` of the `n + 1` live slots (the tail duplicate already
constructed at slot `n`): slots `[pos + 1, n)` receive the old values
of slots `[pos, n - 1)`; slots `[0, pos]` and slot `n` keep theirs. -/
def moveBackwardStep (s : List α) (pos n : Nat) : List α :=
  s.take (pos + 1) ++ (s.drop pos).take (n - 1 - pos) ++ s.drop n

/-- `Emplace(pos, args...)`, success path, with `pos` given as the index
`shift = pos - begin()`.  If `pos == end()`: `EmplaceBack`.  At full
capacity: allocate `growCap size_` fresh slots, construct the new
element at slot `shift`, migrate the old elements before and after it
(value-preserving), destroy the old ones, swap, increment size.
Otherwise: materialize the new value, move-construct a duplicate of the
last element into slot `size_`, shift `[pos, end() - 1)` backward by one
slot, assign the new value into slot `pos`, increment size. -/
def emplace (v : Vector α) (pos : Nat) (x : α) : Vector α :=
  if pos = v.size then emplaceBack v x
  else if v.size = v.capacity then
    ⟨v.elems.take pos ++ x :: v.elems.drop pos, growCap v.size, v.bufferId + 1⟩
  else
    ⟨(moveBackwardStep (v.elems ++ [v.elems.getLastD x]) pos v.size).set pos x,
      v.capacity, v.bufferId⟩

/-- `Insert(pos, value)` — forwards to `Emplace`. -/
def insert (v : Vector α) (pos : Nat) (x : α) : Vector α := emplace v pos x

/-- `Erase(pos)` with `pos` given as the index `shift`: assigns slots
`[pos, end() - 1)` from slots `[pos + 1, end())` (shifting the suffix
down by one), destroys the vacated last slot and decrements size — the
live list becomes `take pos ++ drop (pos + 1)`.  Returns the new state
and the returned iterator `begin() + shift` as its index. -/
def erase (v : Vector α) (pos : Nat) : Vector α × Nat :=
  (⟨v.elems.take pos ++ v.elems.drop (pos + 1), v.capacity, v.bufferId⟩, pos)

/-- `PopBack()` — destroys the last live element and decrements size. -/
def popBack (v : Vector α) : Vector α :=
  ⟨v.elems.dropLast, v.capacity, v.bufferId⟩

end Vector

/-- Slot model of `Vector<T>`: the owned storage as a list of
`capacity` slots, `some a` for a constructed element and `none` for
uninitialized or destroyed raw memory, plus the live count `size_` and
the buffer identity. -/
structure VecS (α : Type) where
  slots : List (Option α)
  size : Nat
  bufferId : Nat
deriving DecidableEq, Repr

namespace VecS

variable {α : Type}

/-- `Capacity()` — the slot count of the owned storage. -/
def capacity (v : VecS α) : Nat := v.slots.length

/-- The live elements: the constructed values among slots [0, size). -/
def live (v : VecS α) : List α := (v.slots.take v.size).filterMap id

/-- The container invariant in the slot model: `size_ <= capacity` and
every slot in [0, size) holds a constructed element. -/
def WF (v : VecS α) : Prop :=
  v.size ≤ v.slots.length ∧ ∀ o ∈ v.slots.take v.size, o.isSome

instance (v : VecS α) : Decidable v.WF := by
  unfold WF
  infer_instance

/-- The `if constexpr` migration choice of vector.h (lines 204, 241,
305, 347): move when `std::is_nothrow_move_constructible_v<T> ||
!std::is_copy_constructible_v<T>`, copy otherwise. -/
def selectMove (nothrowMove copyable : Bool) : Bool :=
  nothrowMove || !copyable

/-- `std::uninitialized_copy_n` / `std::uninitialized_move_n` over the
source elements `l` with a fallible per-element operation `mig`
(`none` models a throwing copy/move constructor): on failure the
algorithm destroys the elements it already constructed and the
exception leaves nothing constructed in the destination. -/
def migrateList (mig : α → Option α) : List α → Option (List α)
  | [] => some []
  | a :: l =>
    match mig a with
    | none => none
    | some b =>
      match migrateList mig l with
      | none => none
      | some bs => some (b :: bs)

/-- `EmplaceBack(args...)` with fallible element operations.  `mk` is
the construction of the new element from `args...` (`none` = it
throws), `mig` the migration operation selected by `selectMove`.  A
`.error` result carries the state of `*this` at the point the exception
escapes; EmplaceBack contains no try/catch, and `*this` is only
modified (destroy old, swap, ++size_) after every fallible step has
succeeded, so every escape carries the original state.  (A failing
`mig` models the copying branch, which never modifies the source; the
nothrow-move branch cannot fail.) -/
def emplaceBackF (mig : α → Option α) (mk : Option α) (v : VecS α) :
    Except (VecS α) (VecS α) :=
  if v.size = v.capacity then
    match mk with
    | none => .error v
    | some x =>
      match migrateList mig v.live with
      | none => .error v
      | some ys =>
        .ok ⟨ys.map some ++ some x ::
              List.replicate (growCap v.size - v.size - 1) none,
             v.size + 1, v.bufferId + 1⟩
  else
    match mk with
    | none => .error v
    | some x => .ok ⟨v.slots.set v.size (some x), v.size + 1, v.bufferId⟩

/-- The reallocating, non-appending branch of `Emplace(pos, args...)`
(vector.h lines 236-284; preconditions `shift < size_` and
`size_ == Capacity()`), with fallible element operations as in
`emplaceBackF`.  Fresh storage of `growCap size_` slots is allocated;
the new element is constructed at slot `shift` (a failure there
escapes with `*this` untouched); then the prefix `[0, shift)` and the
suffix `[shift, size_)` are migrated.  Each migration phase sits in a
`try { ... } catch (...) { ... }` WITHOUT a rethrow: a prefix failure
destroys the new element at slot `shift` and execution continues with
the suffix phase; a suffix failure destroys the elements of the OLD
storage in `[begin(), begin() + shift + 1)` and execution continues.
After the phases the code unconditionally destroys `[begin(), end())`
of the old storage (re-destroying `[0, shift + 1)` if the suffix phase
failed — undefined behaviour that the model renders as an idempotent
transition to `none`), swaps the storage and increments `size_`,
returning normally. -/
def emplaceReallocF (mig : α → Option α) (v : VecS α) (shift : Nat)
    (mk : Option α) : Except (VecS α) (VecS α) :=
  let newCap := growCap v.size
  match mk with
  | none => .error v
  | some x =>
    match migrateList mig (v.live.take shift) with
    | none =>
      match migrateList mig (v.live.drop shift) with
      | none =>
        .ok ⟨List.replicate newCap none, v.size + 1, v.bufferId + 1⟩
      | some zs =>
        .ok ⟨List.replicate (shift + 1) (none : Option α) ++ zs.map some ++
              List.replicate (newCap - v.size - 1) none,
             v.size + 1, v.bufferId + 1⟩
    | some ys =>
      match migrateList mig (v.live.drop shift) with
      | none =>
        .ok ⟨ys.map some ++ some x ::
              List.replicate (newCap - shift - 1) none,
             v.size + 1, v.bufferId + 1⟩
      | some zs =>
        .ok ⟨ys.map some ++ some x :: zs.map some ++
              List.replicate (newCap - v.size - 1) none,
             v.size + 1, v.bufferId + 1⟩

end VecS

/-! ### Helper lemmas about the value model -/

theorem growCap_eq_max (n : Nat) : growCap n = max 1 (2 * n) := by
  unfold growCap
  split <;> omega

namespace Vector

variable {α : Type}

theorem getLastD_congr (l : List α) (c d : α) (h : l ≠ []) :
    l.getLastD c = l.getLastD d := by
  rw [List.getLastD_eq_getLast?, List.getLastD_eq_getLast?,
    List.getLast?_eq_getLast l h]
  rfl

/-- The net effect of the in-capacity shift path of `Emplace`:
constructing the duplicate of the last element at the tail, shifting
`[pos, end() - 1)` back by one and assigning the new value at `pos`
inserts the new value at index `pos`. -/
theorem moveBackwardStep_set (l : List α) (d x : α) (pos : Nat)
    (h : pos < l.length) :
    (moveBackwardStep (l ++ [l.getLastD d]) pos l.length).set pos x =
      l.take pos ++ x :: l.drop pos := by
  induction l generalizing pos d with
  | nil => simp at h
  | cons a t ih =>
    cases pos with
    | zero =>
      have hne : (a :: t) ≠ [] := List.cons_ne_nil a t
      have hlast : (a :: t).getLastD d = (a :: t).getLast hne := by
        rw [List.getLastD_eq_getLast?, List.getLast?_eq_getLast _ hne]
        rfl
      have e1 : ((a :: t) ++ [(a :: t).getLastD d]).take (0 + 1) = [a] := by
        rw [List.take_append_of_le_length (by simp)]
        rfl
      have e2 : (((a :: t) ++ [(a :: t).getLastD d]).drop 0).take
          ((a :: t).length - 1 - 0) = (a :: t).take t.length := by
        rw [List.drop_zero, List.take_append_of_le_length (by simp)]
        congr 1
      have e3 : ((a :: t) ++ [(a :: t).getLastD d]).drop (a :: t).length =
          [(a :: t).getLastD d] := List.drop_left _ _
      have e4 : (a :: t).take t.length ++ [(a :: t).getLastD d] = a :: t := by
        rw [hlast]
        rw [show (a :: t).take t.length = (a :: t).dropLast by
          rw [List.dropLast_eq_take]
          congr 1]
        exact List.dropLast_append_getLast hne
      unfold moveBackwardStep
      rw [e1, e2, e3, List.append_assoc, e4]
      rfl
    | succ q =>
      have hq : q < t.length := by simpa using h
      have ht : t ≠ [] := by
        intro hnil; rw [hnil] at hq; simp at hq
      have hgl : (a :: t).getLastD d = t.getLastD d := by
        rw [List.getLastD_cons, getLastD_congr t a d ht]
      simp only [moveBackwardStep, hgl, List.length_cons]
      have e1 : ((a :: t) ++ [t.getLastD d]).take (q + 1 + 1) =
          a :: ((t ++ [t.getLastD d]).take (q + 1)) := by
        simp [List.take_succ_cons]
      have e2 : ((a :: t) ++ [t.getLastD d]).drop (q + 1) =
          (t ++ [t.getLastD d]).drop q := by
        simp [List.drop_succ_cons]
      have e3 : ((a :: t) ++ [t.getLastD d]).drop (t.length + 1) =
          (t ++ [t.getLastD d]).drop t.length := by
        simp [List.drop_succ_cons]
      have e4 : t.length + 1 - 1 - (q + 1) = t.length - 1 - q := by omega
      rw [e1, e2, e3, e4, List.cons_append, List.cons_append,
        List.set_cons_succ]
      rw [show ((t ++ [t.getLastD d]).take (q + 1) ++
            ((t ++ [t.getLastD d]).drop q).take (t.length - 1 - q) ++
            (t ++ [t.getLastD d]).drop t.length) =
          moveBackwardStep (t ++ [t.getLastD d]) q t.length from rfl]
      rw [ih d q hq]
      simp [List.take_succ_cons, List.drop_succ_cons]

theorem emplaceBack_elems (v : Vector α) (x : α) :
    (emplaceBack v x).elems = v.elems ++ [x] := by
  unfold emplaceBack
  split <;> rfl

theorem emplace_elems (v : Vector α) (pos : Nat) (x : α) (h : pos ≤ v.size) :
    (emplace v pos x).elems = v.elems.take pos ++ x :: v.elems.drop pos := by
  unfold emplace
  by_cases hp : pos = v.size
  · rw [if_pos hp, emplaceBack_elems, hp]
    show v.elems ++ [x] = _
    rw [show (Vector.size v) = v.elems.length from rfl, List.take_length,
      List.drop_length]
  · rw [if_neg hp]
    have hlt : pos < v.elems.length := lt_of_le_of_ne h hp
    split
    · rfl
    · exact moveBackwardStep_set v.elems x x pos hlt

end Vector

/-! ### Claim C2 — move construction / move assignment -/

/-- Claim C2, counterexample: the claim asserts that after
move-assignment the moved-from source has `size() == 0`; but
`operator=(Vector&&)` is a storage swap, so assigning from `[6, 7]`
into a target holding `[5]` leaves the source with the target's former
single element — size 1, not 0. -/
theorem claim_C2_counterexample :
    (Vector.moveAssign (⟨[5], 1, 1⟩ : Vector Nat) ⟨[6, 7], 2, 2⟩
      false).2.size ≠ 0 := by
  decide

/-- Claim C2, amended: move construction is an O(1) storage swap with
a default-constructed (empty) vector, after which the source has
size 0; move assignment on distinct objects is an O(1) storage swap
performing no element-wise work, after which the source holds the
target's former storage and size (0 only when the target was empty). -/
theorem claim_C2_move_semantics (v a b : Vector α) :
    Vector.moveCtor v = (v, Vector.empty) ∧
    (Vector.moveCtor v).1.elems = v.elems ∧
    (Vector.moveCtor v).1.capacity = v.capacity ∧
    (Vector.moveCtor v).2.size = 0 ∧
    Vector.moveAssign a b false = (b, a) ∧
    Vector.moveAssign a a true = (a, a) :=
  ⟨rfl, rfl, rfl, rfl, rfl, rfl⟩

/-! ### Claim C9 — Reserve -/

/-- Claim C9: `Reserve(new_capacity)` with `new_capacity <= capacity`
is a no-op (the vector, its buffer identity included, is returned
unchanged — no reallocation, addresses stay valid); with
`new_capacity > capacity` it allocates exactly `new_capacity` slots in
a fresh buffer, keeps the element values and the size, and swaps
storage. -/
theorem claim_C9_reserve (v : Vector α) (k : Nat) :
    (k ≤ v.capacity → Vector.reserve v k = v) ∧
    (v.capacity < k →
      (Vector.reserve v k).capacity = k ∧
      (Vector.reserve v k).elems = v.elems ∧
      (Vector.reserve v k).size = v.size ∧
      (Vector.reserve v k).bufferId ≠ v.bufferId) := by
  unfold Vector.reserve
  constructor
  · intro h
    rw [if_pos h]
  · intro h
    rw [if_neg (by omega)]
    exact ⟨rfl, rfl, rfl, by simp⟩

/-- Witness for claim C9 at concrete inputs: `Reserve(1)` on a
capacity-2 vector is the identity, `Reserve(5)` on it reallocates to
exactly 5 slots keeping contents, size, and losing the old buffer. -/
theorem claim_C9_reserve_witness :
    Vector.reserve (⟨[3, 4], 2, 1⟩ : Vector Nat) 1 = ⟨[3, 4], 2, 1⟩ ∧
    ((Vector.reserve (⟨[3, 4], 2, 1⟩ : Vector Nat) 5).capacity = 5 ∧
      (Vector.reserve (⟨[3, 4], 2, 1⟩ : Vector Nat) 5).elems = [3, 4] ∧
      (Vector.reserve (⟨[3, 4], 2, 1⟩ : Vector Nat) 5).size =
        Vector.size (⟨[3, 4], 2, 1⟩ : Vector Nat) ∧
      (Vector.reserve (⟨[3, 4], 2, 1⟩ : Vector Nat) 5).bufferId ≠
        (⟨[3, 4], 2, 1⟩ : Vector Nat).bufferId) :=
  ⟨(claim_C9_reserve (⟨[3, 4], 2, 1⟩ : Vector Nat) 1).1 (by decide),
   (claim_C9_reserve (⟨[3, 4], 2, 1⟩ : Vector Nat) 5).2 (by decide)⟩

/-! ### Claim C4 — growth policy -/

namespace Vector

variable {α : Type}

/-- Repeated `PushBack` starting from a default-constructed vector. -/
def pushRepeat (x : α) : Nat → Vector α
  | 0 => empty
  | n + 1 => pushBack (pushRepeat x n) x

theorem emplaceBack_size (v : Vector α) (x : α) :
    (emplaceBack v x).size = v.size + 1 := by
  show (emplaceBack v x).elems.length = v.elems.length + 1
  rw [emplaceBack_elems]
  simp

theorem emplaceBack_capacity_full (v : Vector α) (x : α)
    (h : v.size = v.capacity) :
    (emplaceBack v x).capacity = growCap v.size := by
  unfold emplaceBack
  rw [if_pos h]

theorem emplaceBack_capacity_spare (v : Vector α) (x : α)
    (h : v.size ≠ v.capacity) :
    (emplaceBack v x).capacity = v.capacity := by
  unfold emplaceBack
  rw [if_neg h]

theorem pushRepeat_spec (x : α) (n : Nat) :
    (pushRepeat x n).size = n ∧
    (n = 0 → (pushRepeat x n).capacity = 0) ∧
    (1 ≤ n → ∃ k, (pushRepeat x n).capacity = 2 ^ k ∧ n ≤ 2 ^ k ∧
      2 ^ k < 2 * n) := by
  induction n with
  | zero => exact ⟨rfl, fun _ => rfl, by omega⟩
  | succ n ih =>
    obtain ⟨hsz, hz, hpow⟩ := ih
    have hstep : pushRepeat x (n + 1) = emplaceBack (pushRepeat x n) x := rfl
    have hsz1 : (pushRepeat x (n + 1)).size = n + 1 := by
      rw [hstep, emplaceBack_size, hsz]
    refine ⟨hsz1, by omega, fun _ => ?_⟩
    by_cases hb : (pushRepeat x n).size = (pushRepeat x n).capacity
    · rcases Nat.eq_zero_or_pos n with rfl | hn
      · exact ⟨0, by rw [hstep, emplaceBack_capacity_full _ _ hb, hsz]; rfl,
          by omega, by omega⟩
      · obtain ⟨k, hc, h1, h2⟩ := hpow hn
        have hnk : n = 2 ^ k := by rw [← hsz, hb, hc]
        refine ⟨k + 1, ?_, by omega, by omega⟩
        rw [hstep, emplaceBack_capacity_full _ _ hb, hsz]
        unfold growCap
        rw [if_neg (by omega)]
        rw [hnk, pow_succ]
    · have hn : 1 ≤ n := by
        by_contra hcon
        have : n = 0 := by omega
        subst this
        exact hb (by rw [hsz]; rfl)
      obtain ⟨k, hc, h1, h2⟩ := hpow hn
      have hlt : n < 2 ^ k := by
        rcases Nat.lt_or_ge n (2 ^ k) with h | h
        · exact h
        · exact absurd (by rw [hsz, hc]; omega) hb
      exact ⟨k, by rw [hstep, emplaceBack_capacity_spare _ _ hb, hc],
        by omega, by omega⟩

end Vector

/-- Claim C4, counterexample: not every reallocation triggered by
growth doubles — `Resize` from an empty vector to 3 elements grows the
vector and reallocates (the buffer changes), yet chooses capacity 3,
not `max(1, 2 * 0) = 1` (`Resize`/`Reserve` allocate exactly the
request). -/
theorem claim_C4_counterexample :
    (Vector.resize (⟨[], 0, 0⟩ : Vector Nat) 3 7).bufferId ≠
      (⟨[], 0, 0⟩ : Vector Nat).bufferId ∧
    (Vector.resize (⟨[], 0, 0⟩ : Vector Nat) 3 7).capacity ≠
      max 1 (2 * (⟨[], 0, 0⟩ : Vector Nat).capacity) := by
  decide

/-- Claim C4, amended: every reallocation triggered by the appending
growth paths (`EmplaceBack`/`PushBack` and the reallocating `Emplace`)
chooses new capacity `max(1, 2 * old_capacity)` (`Resize` and `Reserve`
beyond capacity instead allocate exactly the requested amount);
consequently capacity never decreases on a push, and starting from an
empty vector the capacity after `n >= 1` repeated `push_back`s is the
least power of two that is `>= n` — the doubling sequence
1, 2, 4, 8, … . -/
theorem claim_C4_growth_doubling (v : Vector α) (x : α) (pos : Nat)
    (hsz : v.size = v.capacity) (hpos : pos ≠ v.size) :
    (Vector.emplaceBack v x).capacity = max 1 (2 * v.capacity) ∧
    (Vector.emplace v pos x).capacity = max 1 (2 * v.capacity) ∧
    (∀ w : Vector α, w.capacity ≤ (Vector.pushBack w x).capacity) ∧
    (∀ n : Nat, (Vector.pushRepeat x n).size = n) ∧
    (Vector.pushRepeat x 0).capacity = 0 ∧
    (∀ n : Nat, 1 ≤ n → ∃ k, (Vector.pushRepeat x n).capacity = 2 ^ k ∧
      n ≤ 2 ^ k ∧ 2 ^ k < 2 * n) := by
  refine ⟨?_, ?_, ?_, fun n => (Vector.pushRepeat_spec x n).1, rfl,
    fun n hn => (Vector.pushRepeat_spec x n).2.2 hn⟩
  · rw [Vector.emplaceBack_capacity_full v x hsz, hsz, growCap_eq_max]
  · unfold Vector.emplace
    rw [if_neg hpos, if_pos hsz]
    show growCap v.size = _
    rw [hsz, growCap_eq_max]
  · intro w
    unfold Vector.pushBack Vector.emplaceBack
    split
    · next h =>
      show w.capacity ≤ growCap w.size
      rw [← h]
      unfold growCap
      split <;> omega
    · exact le_refl _

/-- Witness for claim C4 on the concrete full vector `[1, 2]`
(size = capacity = 2) with insertion position 0: the push and the
insert both reallocate to capacity `max 1 (2 * 2) = 4`, and after 5
pushes from empty the capacity is 8 = 2^3. -/
theorem claim_C4_growth_doubling_witness :
    (Vector.emplaceBack (⟨[1, 2], 2, 1⟩ : Vector Nat) 5).capacity =
      max 1 (2 * 2) ∧
    (Vector.emplace (⟨[1, 2], 2, 1⟩ : Vector Nat) 0 5).capacity =
      max 1 (2 * 2) ∧
    ∃ k, (Vector.pushRepeat (5 : Nat) 5).capacity = 2 ^ k ∧ 5 ≤ 2 ^ k ∧
      2 ^ k < 2 * 5 :=
  ⟨(claim_C4_growth_doubling (⟨[1, 2], 2, 1⟩ : Vector Nat) 5 0 (by decide)
      (by decide)).1,
   (claim_C4_growth_doubling (⟨[1, 2], 2, 1⟩ : Vector Nat) 5 0 (by decide)
      (by decide)).2.1,
   (claim_C4_growth_doubling (⟨[1, 2], 2, 1⟩ : Vector Nat) 5 0 (by decide)
      (by decide)).2.2.2.2.2 5 (by decide)⟩

/-! ### Claim C6 — Insert/Emplace places the value at pos -/

/-- Claim C6: for `pos` in `[0, size]`, a successful
`Insert(pos, v)`/`Emplace(pos, ...)` places the new value exactly at
index `pos`, keeps every element before `pos` at its index and moves
every element from `pos` onward up by exactly one index (preserving
relative order), increments the size by one, and behaves identically
to `EmplaceBack` when `pos == end()`. -/
theorem claim_C6_insert_places_at_pos (v : Vector α) (pos : Nat) (x : α)
    (h : pos ≤ v.size) :
    (Vector.insert v pos x).elems =
      v.elems.take pos ++ x :: v.elems.drop pos ∧
    (Vector.insert v pos x).size = v.size + 1 ∧
    (Vector.insert v pos x).elems[pos]? = some x ∧
    (∀ i, i < pos → (Vector.insert v pos x).elems[i]? = v.elems[i]?) ∧
    (∀ i, pos ≤ i → i < v.size →
      (Vector.insert v pos x).elems[i + 1]? = v.elems[i]?) ∧
    (pos = v.size → Vector.insert v pos x = Vector.emplaceBack v x) := by
  have he : (Vector.insert v pos x).elems =
      v.elems.take pos ++ x :: v.elems.drop pos :=
    Vector.emplace_elems v pos x h
  have hlen : v.elems.length = v.size := rfl
  refine ⟨he, ?_, ?_, ?_, ?_, ?_⟩
  · show (Vector.insert v pos x).elems.length = v.elems.length + 1
    rw [he]
    simp only [List.length_append, List.length_take, List.length_cons,
      List.length_drop]
    rw [hlen]
    omega
  · rw [he, List.getElem?_append]
    rw [if_neg (by simp only [List.length_take]; rw [hlen]; omega)]
    simp only [List.length_take]
    rw [hlen]
    rw [show pos - min pos v.size = 0 by omega]
    exact List.getElem?_cons_zero
  · intro i hi
    rw [he, List.getElem?_append]
    rw [if_pos (by simp only [List.length_take]; rw [hlen]; omega)]
    rw [List.getElem?_take, if_pos hi]
  · intro i hip his
    rw [he, List.getElem?_append]
    rw [if_neg (by simp only [List.length_take]; rw [hlen]; omega)]
    simp only [List.length_take]
    rw [hlen]
    rw [show i + 1 - min pos v.size = (i - pos) + 1 by omega]
    rw [List.getElem?_cons_succ, List.getElem?_drop]
    congr 1
    omega
  · intro hp
    unfold Vector.insert Vector.emplace
    rw [if_pos hp]

/-- Witness for claim C6: inserting 9 at position 1 of `[1, 2, 3]`
(capacity 5) yields `[1, 9, 2, 3]`. -/
theorem claim_C6_insert_places_at_pos_witness :
    (Vector.insert (⟨[1, 2, 3], 5, 1⟩ : Vector Nat) 1 9).elems =
      [1] ++ 9 :: [2, 3] ∧
    (Vector.insert (⟨[1, 2, 3], 5, 1⟩ : Vector Nat) 1 9).size = 3 + 1 :=
  ⟨(claim_C6_insert_places_at_pos (⟨[1, 2, 3], 5, 1⟩ : Vector Nat) 1 9
      (by decide)).1,
   (claim_C6_insert_places_at_pos (⟨[1, 2, 3], 5, 1⟩ : Vector Nat) 1 9
      (by decide)).2.1⟩

/-! ### Claim C7 — Erase -/

/-- Claim C7: for `pos` in `[0, size)`, `Erase(pos)` removes exactly
the element at `pos`, keeps every earlier element at its index, shifts
every later element down by exactly one index, leaves capacity and
storage untouched, decrements size by one, and returns an iterator to
index `pos` — which equals the new `end()` exactly when the removed
element was last. -/
theorem claim_C7_erase (v : Vector α) (pos : Nat) (h : pos < v.size) :
    (Vector.erase v pos).1.elems =
      v.elems.take pos ++ v.elems.drop (pos + 1) ∧
    (Vector.erase v pos).1.size = v.size - 1 ∧
    (Vector.erase v pos).1.capacity = v.capacity ∧
    (Vector.erase v pos).1.bufferId = v.bufferId ∧
    (Vector.erase v pos).2 = pos ∧
    (∀ i, i < pos → (Vector.erase v pos).1.elems[i]? = v.elems[i]?) ∧
    (∀ i, pos ≤ i → i + 1 < v.size →
      (Vector.erase v pos).1.elems[i]? = v.elems[i + 1]?) ∧
    (pos + 1 = v.size → (Vector.erase v pos).2 = (Vector.erase v pos).1.size) := by
  have hlen : v.elems.length = v.size := rfl
  have hsz : (Vector.erase v pos).1.size = v.size - 1 := by
    show (v.elems.take pos ++ v.elems.drop (pos + 1)).length = v.size - 1
    simp only [List.length_append, List.length_take, List.length_drop]
    rw [hlen]
    omega
  refine ⟨rfl, hsz, rfl, rfl, rfl, ?_, ?_, ?_⟩
  · intro i hi
    show (v.elems.take pos ++ v.elems.drop (pos + 1))[i]? = v.elems[i]?
    rw [List.getElem?_append]
    rw [if_pos (by simp only [List.length_take]; rw [hlen]; omega)]
    rw [List.getElem?_take, if_pos hi]
  · intro i hip his
    show (v.elems.take pos ++ v.elems.drop (pos + 1))[i]? = v.elems[i + 1]?
    rw [List.getElem?_append]
    rw [if_neg (by simp only [List.length_take]; rw [hlen]; omega)]
    simp only [List.length_take]
    rw [hlen, List.getElem?_drop]
    congr 1
    omega
  · intro hp
    rw [hsz]
    show pos = v.size - 1
    omega

/-- Witness for claim C7: erasing position 1 of `[1, 2, 3]` yields
`[1, 3]` with size 2 and returns index 1. -/
theorem claim_C7_erase_witness :
    (Vector.erase (⟨[1, 2, 3], 4, 1⟩ : Vector Nat) 1).1.elems =
      [1] ++ [3] ∧
    (Vector.erase (⟨[1, 2, 3], 4, 1⟩ : Vector Nat) 1).1.size = 3 - 1 ∧
    (Vector.erase (⟨[1, 2, 3], 4, 1⟩ : Vector Nat) 1).2 = 1 :=
  ⟨(claim_C7_erase (⟨[1, 2, 3], 4, 1⟩ : Vector Nat) 1 (by decide)).1,
   (claim_C7_erase (⟨[1, 2, 3], 4, 1⟩ : Vector Nat) 1 (by decide)).2.1,
   (claim_C7_erase (⟨[1, 2, 3], 4, 1⟩ : Vector Nat) 1 (by decide)).2.2.2.2.1⟩

/-! ### Claim C8 — copy assignment -/

/-- Claim C8: copy-assignment between distinct vectors (distinct
storage, modelled by distinct buffer identities) makes the target
element-wise equal to the source while never sharing the source's
buffer (so later mutation through either buffer cannot affect the
other); it builds a fresh full copy and swaps (copy-and-swap) exactly
when the source size exceeds the target capacity, and otherwise reuses
the target's storage (same buffer, same capacity), assigning the
overlapping front, destroying surplus trailing elements or
copy-constructing the surplus source elements into the raw tail. -/
theorem claim_C8_copy_assign (self rhs : Vector α)
    (hbuf : self.bufferId ≠ rhs.bufferId) :
    (Vector.copyAssign self rhs false).elems = rhs.elems ∧
    (Vector.copyAssign self rhs false).size = rhs.size ∧
    (Vector.copyAssign self rhs false).bufferId ≠ rhs.bufferId ∧
    (self.capacity < rhs.size →
      Vector.copyAssign self rhs false = Vector.copyCtor rhs ∧
      (Vector.copyAssign self rhs false).capacity = rhs.size) ∧
    (rhs.size ≤ self.capacity →
      (Vector.copyAssign self rhs false).capacity = self.capacity ∧
      (Vector.copyAssign self rhs false).bufferId = self.bufferId) := by
  have hfalse : ¬ (false = true) := by simp
  have helems : (Vector.copyAssign self rhs false).elems = rhs.elems := by
    unfold Vector.copyAssign
    rw [if_neg hfalse]
    split
    · rfl
    · split
      · show (rhs.elems ++ self.elems.drop rhs.size).take rhs.size = rhs.elems
        rw [show (Vector.size rhs) = rhs.elems.length from rfl]
        rw [List.take_append_of_le_length (le_refl _), List.take_length]
      · exact List.take_append_drop _ _
  refine ⟨helems, ?_, ?_, ?_, ?_⟩
  · show (Vector.copyAssign self rhs false).elems.length = rhs.elems.length
    rw [helems]
  · unfold Vector.copyAssign
    rw [if_neg hfalse]
    split
    · next h1 =>
      show (if Vector.size rhs = 0 then 0 else rhs.bufferId + 1) ≠
        rhs.bufferId
      rw [if_neg (by omega)]
      omega
    · split
      · exact hbuf
      · exact hbuf
  · intro h1
    unfold Vector.copyAssign
    rw [if_neg hfalse, if_pos h1]
    refine ⟨rfl, ?_⟩
    show Vector.size rhs = Vector.size rhs
    rfl
  · intro h1
    unfold Vector.copyAssign
    rw [if_neg hfalse, if_neg (by omega)]
    split
    · exact ⟨rfl, rfl⟩
    · exact ⟨rfl, rfl⟩

/-- Witness for claim C8: assigning `[8, 9]` (buffer 3) into
`[1, 2, 3]` (capacity 4, buffer 7) reuses the target's storage and
yields elements `[8, 9]` on a buffer distinct from the source. -/
theorem claim_C8_copy_assign_witness :
    (Vector.copyAssign (⟨[1, 2, 3], 4, 7⟩ : Vector Nat) ⟨[8, 9], 2, 3⟩
      false).elems = [8, 9] ∧
    (Vector.copyAssign (⟨[1, 2, 3], 4, 7⟩ : Vector Nat) ⟨[8, 9], 2, 3⟩
      false).bufferId ≠ 3 ∧
    ((Vector.copyAssign (⟨[1, 2, 3], 4, 7⟩ : Vector Nat) ⟨[8, 9], 2, 3⟩
      false).capacity = 4 ∧
     (Vector.copyAssign (⟨[1, 2, 3], 4, 7⟩ : Vector Nat) ⟨[8, 9], 2, 3⟩
      false).bufferId = 7) :=
  ⟨(claim_C8_copy_assign (⟨[1, 2, 3], 4, 7⟩ : Vector Nat) ⟨[8, 9], 2, 3⟩
      (by decide)).1,
   (claim_C8_copy_assign (⟨[1, 2, 3], 4, 7⟩ : Vector Nat) ⟨[8, 9], 2, 3⟩
      (by decide)).2.2.1,
   (claim_C8_copy_assign (⟨[1, 2, 3], 4, 7⟩ : Vector Nat) ⟨[8, 9], 2, 3⟩
      (by decide)).2.2.2.2 (by decide)⟩

/-! ### Claim C5 — the size <= capacity invariant -/

namespace Vector

theorem emplaceBack_WF (v : Vector α) (x : α) (hv : v.WF) :
    (emplaceBack v x).WF := by
  have hlen : v.elems.length = v.size := rfl
  unfold WF
  have h1 : (emplaceBack v x).elems.length = v.elems.length + 1 := by
    rw [emplaceBack_elems]
    simp
  rw [h1]
  by_cases hb : v.size = v.capacity
  · rw [emplaceBack_capacity_full _ _ hb]
    unfold growCap
    unfold WF at hv
    split <;> omega
  · rw [emplaceBack_capacity_spare _ _ hb]
    unfold WF at hv
    omega

theorem emplace_WF (v : Vector α) (pos : Nat) (x : α) (hv : v.WF)
    (hpos : pos ≤ v.size) :
    (emplace v pos x).WF := by
  have hlen : v.elems.length = v.size := rfl
  by_cases hp : pos = v.size
  · unfold emplace
    rw [if_pos hp]
    exact emplaceBack_WF v x hv
  · have h1 : (emplace v pos x).elems.length = v.elems.length + 1 := by
      rw [emplace_elems v pos x hpos]
      simp only [List.length_append, List.length_take, List.length_cons,
        List.length_drop]
      omega
    unfold WF
    rw [h1]
    unfold emplace
    rw [if_neg hp]
    split
    · next hb =>
      show v.elems.length + 1 ≤ growCap v.size
      unfold growCap
      split <;> omega
    · next hb =>
      unfold WF at hv
      show v.elems.length + 1 ≤ v.capacity
      omega

end Vector

/-- Claim C5: every operation of the class — sized construction, copy
and move construction, copy and move assignment (self-directed or
not), `Resize`, `PushBack`/`EmplaceBack`, `Emplace`/`Insert`, `Erase`,
`PopBack`, `Reserve` and `Swap` — preserves the invariant
`0 <= size <= capacity` (the elements `[0, size)` being the live
values and `[size, capacity)` raw storage, as the model's
live-element-list representation builds in). -/
theorem claim_C5_invariant (v w : Vector α) (x d : α) (n k pos q : Nat)
    (b : Bool) (hv : v.WF) (hw : w.WF) (hpos : pos ≤ v.size) :
    (Vector.mkSized n d).WF ∧
    (Vector.empty : Vector α).WF ∧
    (Vector.copyCtor v).WF ∧
    (Vector.moveCtor v).1.WF ∧
    (Vector.moveCtor v).2.WF ∧
    (Vector.copyAssign v w b).WF ∧
    (Vector.moveAssign v w b).1.WF ∧
    (Vector.moveAssign v w b).2.WF ∧
    (Vector.resize v k d).WF ∧
    (Vector.pushBack v x).WF ∧
    (Vector.emplaceBack v x).WF ∧
    (Vector.emplace v pos x).WF ∧
    (Vector.insert v pos x).WF ∧
    (Vector.erase v q).1.WF ∧
    (Vector.popBack v).WF ∧
    (Vector.reserve v k).WF ∧
    (Vector.swap v w).1.WF ∧
    (Vector.swap v w).2.WF := by
  have hlv : v.elems.length = v.size := rfl
  have hlw : w.elems.length = w.size := rfl
  have hvc : v.elems.length ≤ v.capacity := hv
  have hwc : w.elems.length ≤ w.capacity := hw
  refine ⟨?_, ?_, ?_, hv, ?_, ?_, ?_, ?_, ?_, ?_, ?_, ?_, ?_, ?_, ?_, ?_,
    hw, hv⟩
  · show (List.replicate n d).length ≤ n
    simp
  · show (List.length ([] : List α)) ≤ 0
    simp
  · show v.elems.length ≤ Vector.size v
    exact le_of_eq hlv
  · show (List.length ([] : List α)) ≤ 0
    simp
  · cases b
    · unfold Vector.WF Vector.copyAssign Vector.copyCtor Vector.size
      rw [if_neg (by simp)]
      split_ifs with h1 h2 <;>
        simp only [List.length_take, List.length_append,
          List.length_drop] <;> omega
    · exact hv
  · cases b
    · exact hw
    · exact hv
  · cases b
    · exact hv
    · exact hw
  · unfold Vector.WF Vector.resize Vector.reserve Vector.size
    split_ifs with h1 h2 h3 <;>
      (try simp only [List.length_take, List.length_append,
        List.length_replicate]) <;> omega
  · exact Vector.emplaceBack_WF v x hv
  · exact Vector.emplaceBack_WF v x hv
  · exact Vector.emplace_WF v pos x hv hpos
  · exact Vector.emplace_WF v pos x hv hpos
  · show (v.elems.take q ++ v.elems.drop (q + 1)).length ≤ v.capacity
    simp only [List.length_append, List.length_take, List.length_drop]
    omega
  · show v.elems.dropLast.length ≤ v.capacity
    rw [List.length_dropLast]
    omega
  · unfold Vector.WF Vector.reserve
    split_ifs with h1 <;> (try dsimp only) <;> omega

/-- Witness for claim C5 at concrete well-formed vectors
`v = [1, 2]` (capacity 3), `w = [7]` (capacity 2), position 1. -/
theorem claim_C5_invariant_witness :
    (Vector.emplace (⟨[1, 2], 3, 1⟩ : Vector Nat) 1 9).WF ∧
    (Vector.resize (⟨[1, 2], 3, 1⟩ : Vector Nat) 6 0).WF ∧
    (Vector.copyAssign (⟨[1, 2], 3, 1⟩ : Vector Nat) ⟨[7], 2, 2⟩
      true).WF :=
  ⟨(claim_C5_invariant (⟨[1, 2], 3, 1⟩ : Vector Nat) ⟨[7], 2, 2⟩ 9 0 4 6 1
      1 true (by decide) (by decide) (by decide)).2.2.2.2.2.2.2.2.2.2.2.1,
   (claim_C5_invariant (⟨[1, 2], 3, 1⟩ : Vector Nat) ⟨[7], 2, 2⟩ 9 0 4 6 1
      1 true (by decide) (by decide) (by decide)).2.2.2.2.2.2.2.2.1,
   (claim_C5_invariant (⟨[1, 2], 3, 1⟩ : Vector Nat) ⟨[7], 2, 2⟩ 9 0 4 6 1
      1 true (by decide) (by decide) (by decide)).2.2.2.2.2.1⟩

/-! ### Claim C10 — self-assignment -/

/-- Claim C10: both assignment operators detect the self case
(`this == &rhs`) and leave the vector completely unchanged, performing
no element or storage work. -/
theorem claim_C10_self_assign (v : Vector α) :
    Vector.copyAssign v v true = v ∧
    Vector.moveAssign v v true = (v, v) :=
  ⟨rfl, rfl⟩

/-! ### Slot-model lemmas for the exception-path claims -/

namespace VecS

variable {α : Type}

theorem filterMap_id_length (l : List (Option α))
    (h : ∀ o ∈ l, o.isSome) : (l.filterMap id).length = l.length := by
  induction l with
  | nil => rfl
  | cons o t ih =>
    cases o with
    | none =>
      have hn := h none (by simp)
      simp at hn
    | some a =>
      have ht : (t.filterMap id).length = t.length :=
        ih fun o ho => h o (by simp [ho])
      simp only [List.filterMap_cons, id_eq, List.length_cons, ht]

theorem migrateList_length (mig : α → Option α) (l : List α)
    (ys : List α) (h : migrateList mig l = some ys) :
    ys.length = l.length := by
  induction l generalizing ys with
  | nil =>
    simp only [migrateList, Option.some.injEq] at h
    rw [← h]
  | cons a t ih =>
    simp only [migrateList] at h
    cases hm : mig a with
    | none => rw [hm] at h; exact absurd h (by simp)
    | some b =>
      rw [hm] at h
      cases hr : migrateList mig t with
      | none => rw [hr] at h; exact absurd h (by simp)
      | some bs =>
        rw [hr] at h
        simp only [Option.some.injEq] at h
        rw [← h, List.length_cons, ih bs hr]
        rfl

theorem live_length (v : VecS α) (h : v.WF) : v.live.length = v.size := by
  unfold live
  rw [filterMap_id_length _ h.2, List.length_take]
  have h1 := h.1
  omega

end VecS

/-! ### Claim C3 — exception safety of the reallocating EmplaceBack -/

/-- Claim C3: in the reallocating `EmplaceBack` path
(`size_ == Capacity()`), the new element is constructed into the fresh
storage before any old element is touched, so a failure of its
construction escapes with the vector's size, capacity, contents and
storage completely unchanged (and a failing migration likewise escapes
before anything is committed, the partially constructed new elements
having been destroyed); on success the old elements are migrated —
moved exactly when the element type is nothrow-move-constructible or
not copy-constructible, otherwise copied — the old elements destroyed,
storage swapped to the fresh buffer of `growCap size_` slots, size
incremented, and the new element sits in the last live slot. -/
theorem claim_C3_emplace_back_realloc (v : VecS α) (mig : α → Option α)
    (x : α) (hsz : v.size = v.capacity) (hwf : v.WF) :
    VecS.emplaceBackF mig none v = .error v ∧
    (VecS.migrateList mig v.live = none →
      VecS.emplaceBackF mig (some x) v = .error v) ∧
    (∀ ys, VecS.migrateList mig v.live = some ys →
      ∃ w, VecS.emplaceBackF mig (some x) v = .ok w ∧
        w.slots = ys.map some ++ some x ::
          List.replicate (growCap v.size - v.size - 1) none ∧
        w.live = ys ++ [x] ∧
        w.size = v.size + 1 ∧
        w.capacity = growCap v.size ∧
        w.bufferId = v.bufferId + 1 ∧
        w.WF) ∧
    (∀ b c : Bool, VecS.selectMove b c = (b || !c)) := by
  have hgrow : v.size + 1 ≤ growCap v.size := by
    unfold growCap
    split <;> omega
  refine ⟨?_, ?_, ?_, fun b c => rfl⟩
  · unfold VecS.emplaceBackF
    rw [if_pos hsz]
  · intro hmig
    unfold VecS.emplaceBackF
    rw [if_pos hsz, hmig]
  · intro ys hmig
    have hys : ys.length = v.size := by
      rw [VecS.migrateList_length mig v.live ys hmig, VecS.live_length v hwf]
    refine ⟨⟨ys.map some ++ some x ::
        List.replicate (growCap v.size - v.size - 1) none,
        v.size + 1, v.bufferId + 1⟩, ?_, rfl, ?_, rfl, ?_, rfl, ?_⟩
    · unfold VecS.emplaceBackF
      rw [if_pos hsz, hmig]
    · show ((ys.map some ++ some x ::
        List.replicate (growCap v.size - v.size - 1) none).take
          (v.size + 1)).filterMap id = ys ++ [x]
      rw [show v.size + 1 = (ys.map some).length + 1 by simp [hys]]
      rw [List.take_append, List.filterMap_append]
      congr 1
      rw [List.filterMap_map]
      have : (id ∘ some : α → Option α) = some := rfl
      rw [this, List.filterMap_some]
    · show (ys.map some ++ some x ::
        List.replicate (growCap v.size - v.size - 1) none).length =
          growCap v.size
      simp only [List.length_append, List.length_map, List.length_cons,
        List.length_replicate, hys]
      omega
    · constructor
      · show v.size + 1 ≤ (ys.map some ++ some x ::
          List.replicate (growCap v.size - v.size - 1) none).length
        simp only [List.length_append, List.length_map, List.length_cons,
          List.length_replicate, hys]
        omega
      · intro o ho
        rw [show v.size + 1 = (ys.map some).length + 1 by simp [hys],
          List.take_append] at ho
        rcases List.mem_append.mp ho with hin | hin
        · rcases List.mem_map.mp hin with ⟨a, _, rfl⟩
          rfl
        · simp only [List.take_succ_cons, List.take_zero,
            List.mem_singleton] at hin
          subst hin
          rfl

/-- Witness for claim C3: pushing 7 into the full vector `[1, 2]`
(size = capacity = 2) with a non-failing copy succeeds with live
elements `[1, 2, 7]` in a fresh 4-slot buffer, and a failing
construction of the new element escapes with the vector unchanged. -/
theorem claim_C3_emplace_back_realloc_witness :
    VecS.emplaceBackF (fun a => some a) none
      (⟨[some 1, some 2], 2, 1⟩ : VecS Nat) =
      .error ⟨[some 1, some 2], 2, 1⟩ ∧
    ∃ w, VecS.emplaceBackF (fun a => some a) (some 7)
        (⟨[some 1, some 2], 2, 1⟩ : VecS Nat) = .ok w ∧
      w.slots = [1, 2].map some ++ some 7 ::
        List.replicate (growCap 2 - 2 - 1) none ∧
      w.live = [1, 2] ++ [7] ∧
      w.size = 2 + 1 ∧
      w.capacity = growCap 2 ∧
      w.bufferId = 1 + 1 ∧
      w.WF :=
  ⟨(claim_C3_emplace_back_realloc (⟨[some 1, some 2], 2, 1⟩ : VecS Nat)
      (fun a => some a) 7 (by decide) (by decide)).1,
   (claim_C3_emplace_back_realloc (⟨[some 1, some 2], 2, 1⟩ : VecS Nat)
      (fun a => some a) 7 (by decide) (by decide)).2.2.1 [1, 2] (by decide)⟩

/-! ### Claim C1 — the reallocating Emplace swallows migration failures -/

/-- Claim C1 (refuting evaluation): insert 99 at position 1 of the full
vector `[10, 20]` (size = capacity = 2) with an element type whose copy
of the value 10 throws.  The prefix-migration phase fails, the `catch`
block destroys the new element but does NOT rethrow, the suffix is
still migrated, the old elements are destroyed, the corrupted fresh
storage is swapped in and size is incremented: `Emplace` returns
normally — the failure does not propagate and the vector is left as a
size-3 object whose first two slots are unconstructed, violating the
invariant, instead of being left unchanged. -/
theorem claim_C1_migration_failure_swallowed :
    VecS.emplaceReallocF (fun a => if a = 10 then none else some a)
      (⟨[some 10, some 20], 2, 1⟩ : VecS Nat) 1 (some 99) =
      .ok ⟨[none, none, some 20, none], 3, 2⟩ ∧
    ¬ VecS.WF (⟨[none, none, some 20, none], 3, 2⟩ : VecS Nat) :=
  ⟨rfl, by decide⟩

end AdvVec
